import Mathlib

/-!
Verification development for the sveltedoc-parser documentation-extraction
engine.  The repository ships its public schema in `src/typings.d.ts`
(`JSDocKeyword`, `JSDocType`, `SourceLocation`, `ISvelteItem` and the concrete
item shapes, `SvelteComponentDoc`); the extraction implementation itself is not
under `src/`, so the operational definitions below are modelled from the
specification (sections 4 through 7) and are marked as such in their doc
comments.  The record types mirror `src/typings.d.ts` field for field.
-/

/-- A statically determinable JavaScript literal value, as recorded in the
`value` fields of `src/typings.d.ts` (`SvelteDataItem.value`,
`JSDocType.value`).  Numeric literals are modelled by integers: the engine
only records literals, it never computes with them. -/
inductive JSValue where
  | num (n : Int)
  | str (s : String)
  | bool (b : Bool)
  | null
deriving DecidableEq

/-- The `kind` discriminator of `JSDocType` (`src/typings.d.ts` line 21). -/
inductive TypeKind where
  | type
  | union
  | const
deriving DecidableEq

/-- Mirrors `JSDocType` of `src/typings.d.ts` lines 17-36: a kind tag, the
text representation, a `type` field that is either a type-name string or a
list of nested `JSDocType` alternatives, and an optional constant value. -/
inductive JSDocType : Type where
  | mk (kind : TypeKind) (text : String) (type : String ⊕ List JSDocType)
      (value : Option JSValue) : JSDocType

/-- The `kind` field of a `JSDocType`. -/
def JSDocType.kind : JSDocType → TypeKind
  | .mk k _ _ _ => k

/-- The `text` field of a `JSDocType`. -/
def JSDocType.text : JSDocType → String
  | .mk _ t _ _ => t

/-- The `type` field of a `JSDocType`. -/
def JSDocType.type : JSDocType → String ⊕ List JSDocType
  | .mk _ _ ty _ => ty

/-- The `value` field of a `JSDocType`. -/
def JSDocType.value : JSDocType → Option JSValue
  | .mk _ _ _ v => v

mutual

/-- The `JSDocType` invariant of the schema: `kind = union` forces the `type`
field to be a list of at least two alternatives (each itself well-formed),
`kind = type` and `kind = const` force it to be a type-name string, and
`kind = const` forces a present `value`. -/
def JSDocType.wf : JSDocType → Bool
  | .mk k _ ty v =>
    match k, ty with
    | TypeKind.union, Sum.inr ts => decide (2 ≤ ts.length) && JSDocType.wfList ts
    | TypeKind.union, Sum.inl _ => false
    | TypeKind.const, Sum.inl _ => v.isSome
    | TypeKind.const, Sum.inr _ => false
    | TypeKind.type, Sum.inl _ => true
    | TypeKind.type, Sum.inr _ => false

/-- All members of a list of `JSDocType` are well-formed. -/
def JSDocType.wfList : List JSDocType → Bool
  | [] => true
  | t :: ts => t.wf && JSDocType.wfList ts

end

/-- Mirrors `SourceLocation` of `src/typings.d.ts` lines 41-51; the `end`
field is spelled `end_` because `end` is reserved in Lean. -/
structure SourceLocation where
  start : Nat
  end_ : Nat
deriving DecidableEq

/-- Mirrors `JSDocKeyword` of `src/typings.d.ts` lines 4-15. -/
structure JSDocKeyword where
  name : String
  description : String
deriving DecidableEq

/-- The `visibility` classification of `ISvelteItem`
(`src/typings.d.ts` line 72); trailing underscores avoid Lean keywords. -/
inductive Visibility where
  | public
  | protected_
  | private_
deriving DecidableEq

/-- Modelled from the spec: the script expression AST produced by the Script
AST Builder (section 4) is not under `src/`.  Expressions are modelled as a
tree of identifier references, literals, operator applications, function
application (multi-argument calls appear as iterated application), member
accesses, function literals with a parameter list, and conditionals. -/
inductive Expr where
  | ident (n : String)
  | lit (v : JSValue)
  | unop (op : String) (a : Expr)
  | binop (op : String) (a b : Expr)
  | call (fn arg : Expr)
  | member (obj : Expr) (field : String)
  | lam (params : List String) (body : Expr)
  | cond (c t e : Expr)
deriving DecidableEq

/-- Modelled from the spec: an explicit type-annotation token / JSDoc type
expression consumed by the Type Resolver (section 4.2).  A `|`-separated
union is syntactically binary (each `|` joins two alternatives);
`unknown` stands for any construct the resolver cannot interpret. -/
inductive TypeAnnot where
  | name (s : String)
  | union (a b : TypeAnnot)
  | unknown
deriving DecidableEq

/-- The runtime type name of a literal, used for `kind = const` resolution
(spec section 4.2). -/
def jsTypeName : JSValue → String
  | .num _ => "number"
  | .str _ => "string"
  | .bool _ => "boolean"
  | .null => "null"

/-- The source text of a literal value. -/
def jsLiteralString : JSValue → String
  | .num n => toString n
  | .str s => "\"" ++ s ++ "\""
  | .bool b => if b then "true" else "false"
  | .null => "null"

/-- The stringification of an expression, used for default-value rendering of
method parameters (spec section 4.3). -/
def Expr.toCode : Expr → String
  | .ident n => n
  | .lit v => jsLiteralString v
  | .unop op a => op ++ a.toCode
  | .binop op a b => a.toCode ++ " " ++ op ++ " " ++ b.toCode
  | .call f a => f.toCode ++ "(" ++ a.toCode ++ ")"
  | .member o f => o.toCode ++ "." ++ f
  | .lam ps b => "(" ++ String.intercalate ", " ps ++ ") => " ++ b.toCode
  | .cond c t e => c.toCode ++ " ? " ++ t.toCode ++ " : " ++ e.toCode

/-- The `any` fallback type of the resolver: `kind = type`, `type = "any"`,
no `value` (spec section 4.2). -/
def anyType : JSDocType := .mk .type "any" (.inl "any") none

/-- Modelled from the spec (section 4.2): resolution of an explicit type
annotation.  A single name yields `kind = type`; a `|`-union yields
`kind = union` with one resolved alternative per side; an unresolvable
construct degrades to the `any` fallback. -/
def resolveAnnot : TypeAnnot → JSDocType
  | .name s => .mk .type s (.inl s) none
  | .union a b =>
    let ta := resolveAnnot a
    let tb := resolveAnnot b
    .mk .union (ta.text ++ "|" ++ tb.text) (.inr [ta, tb]) none
  | .unknown => anyType

/-- The literal value of an initializer expression, when it is a literal. -/
def Expr.literal? : Expr → Option JSValue
  | .lit v => some v
  | _ => none

/-- Modelled from the spec (section 4.2): the Type Resolver.  The annotation
is authoritative when present; otherwise a literal initializer yields
`kind = const` with the literal's value and runtime type name; anything else
(non-literal initializer or nothing at all) degrades to the `any` fallback.
Total by construction: resolution never throws. -/
def resolveType (ann : Option TypeAnnot) (init : Option Expr) : JSDocType :=
  match ann, init with
  | some a, _ => resolveAnnot a
  | none, some e =>
    match e.literal? with
    | some v => .mk .const (jsTypeName v) (.inl (jsTypeName v)) (some v)
    | none => anyType
  | none, none => anyType

/-- Modelled from the spec (section 4.4): the in-order sequence of free
identifier occurrences of an expression, given the identifiers bound by
enclosing function literals.  A reference shadowed by a local binding (a
function parameter) is not free. -/
def Expr.freeRefs : Expr → List String → List String
  | .ident n, bound => if bound.contains n then [] else [n]
  | .lit _, _ => []
  | .unop _ a, bound => a.freeRefs bound
  | .binop _ a b, bound => a.freeRefs bound ++ b.freeRefs bound
  | .call f a, bound => f.freeRefs bound ++ a.freeRefs bound
  | .member o _, bound => o.freeRefs bound
  | .lam ps b, bound => b.freeRefs (ps ++ bound)
  | .cond c t e, bound => c.freeRefs bound ++ t.freeRefs bound ++ e.freeRefs bound

/-- Keep the first occurrence of every key, dropping later repeats and any
element whose key was already seen. -/
def dedupBy {α : Type} (key : α → String) : List String → List α → List α
  | _, [] => []
  | seen, x :: xs =>
    if seen.contains (key x) then dedupBy key seen xs
    else x :: dedupBy key (key x :: seen) xs

/-- Modelled from the spec (section 4.4): the Dependency Analyzer.  Collect
every free identifier of the defining expression that matches a known
data/computed name, keep first-occurrence order, drop duplicates, and elide a
self-reference. -/
def computeDependencies (known : List String) (self : String) (e : Expr) :
    List String :=
  dedupBy id [] ((e.freeRefs []).filter (fun n => known.contains n && !(n == self)))

/-- Written from the spec's words (section 4.4), independently of the
analyzer's accumulator implementation: preserving first-occurrence order
with no duplicates means keeping every element of the collected sequence at
its first occurrence and erasing its later repeats. -/
def specFirstOccurrences : List String → List String
  | [] => []
  | x :: xs => x :: (specFirstOccurrences xs).filter (fun y => !(y == x))

/-- Written from the spec's words (section 4.4): the dependency list is the
in-order sequence of free identifier references that match a known
data/computed name and are not the item itself, kept at first occurrence. -/
def specDependencies (known : List String) (self : String) (e : Expr) :
    List String :=
  specFirstOccurrences
    ((e.freeRefs []).filter (fun n => known.contains n && !(n == self)))

/-- A character that may occur in an identifier. -/
def isIdentChar (c : Char) : Bool :=
  c.isAlphanum || c == '_' || c == '$'

/-- Modelled from the spec: the Script AST Builder is not under `src/`; a
parsed identifier token is a non-empty word starting with a letter,
underscore or dollar sign, so declaration names in a parsed AST satisfy this
predicate. -/
def isValidIdent (s : String) : Bool :=
  match s.toList with
  | [] => false
  | c :: cs => (c.isAlpha || c == '_' || c == '$') && cs.all isIdentChar

/-- Split a character sequence into lines at newline characters. -/
def splitLinesAux : List Char → List Char → List (List Char)
  | [], acc => [acc.reverse]
  | c :: cs, acc =>
    if c = '\n' then acc.reverse :: splitLinesAux cs []
    else splitLinesAux cs (c :: acc)

/-- The lines of a comment block's text. -/
def splitLines (cs : List Char) : List (List Char) :=
  splitLinesAux cs []

/-- Remove surrounding whitespace from a character sequence. -/
def trimChars (cs : List Char) : List Char :=
  ((cs.dropWhile Char.isWhitespace).reverse.dropWhile Char.isWhitespace).reverse

/-- Strip per-line comment decoration: surrounding blanks and leading
asterisks (spec section 4.1). -/
def stripLine (l : List Char) : List Char :=
  trimChars ((trimChars l).dropWhile (fun c => c = '*'))

/-- Parse one stripped comment line as a `@word rest` keyword line, yielding
the word and the trimmed remainder; a line whose `@` is not followed by an
identifier is not a keyword line. -/
def keywordLine? : List Char → Option (List Char × List Char)
  | '@' :: rest =>
    let nm := rest.takeWhile isIdentChar
    if nm = [] then none
    else some (nm, trimChars (rest.dropWhile isIdentChar))
  | _ => none

/-- The stripped lines of a comment block, with `@`-only lines removed
(such a line is ignored, spec section 4.1). -/
def commentLines (text : String) : List (List Char) :=
  ((splitLines text.toList).map stripLine).filter
    (fun l => !(l.head? == some '@') || (keywordLine? l).isSome)

/-- Join character sequences with a separator character. -/
def joinWith (sep : Char) : List (List Char) → List Char
  | [] => []
  | [l] => l
  | l :: ls => l ++ sep :: joinWith sep ls

/-- Modelled from the spec (section 4.1): fold keyword lines into
`JSDocKeyword` records, attaching continuation lines (up to the next keyword
line) to the description of the pending keyword carried in the
accumulator. -/
def collectKeywordsAux : Option (List Char × List Char) → List (List Char) →
    List JSDocKeyword
  | some (nm, d), [] => [⟨String.mk nm, String.mk (trimChars d)⟩]
  | none, [] => []
  | pending, l :: ls =>
    match keywordLine? l with
    | some (nm, d) =>
      match pending with
      | some (nm₀, d₀) =>
        ⟨String.mk nm₀, String.mk (trimChars d₀)⟩ ::
          collectKeywordsAux (some (nm, d)) ls
      | none => collectKeywordsAux (some (nm, d)) ls
    | none =>
      match pending with
      | some (nm₀, d₀) => collectKeywordsAux (some (nm₀, d₀ ++ ' ' :: l)) ls
      | none => collectKeywordsAux none ls

/-- The keyword records of a stripped comment-line sequence. -/
def collectKeywords (ls : List (List Char)) : List JSDocKeyword :=
  collectKeywordsAux none ls

/-- The parsed form of one comment block: a description plus an ordered
keyword sequence (spec section 4.1). -/
structure CommentDoc where
  description : Option String
  keywords : List JSDocKeyword
deriving DecidableEq

/-- Modelled from the spec (section 4.1): the Comment Parser.  The leading
contiguous non-keyword lines (trimmed) become the description — `none` when
empty — and the remaining lines are folded into keyword records.  The
`keywords` field is a plain sequence: it is empty, never missing, when the
block has no keyword lines. -/
def parseComment (text : String) : CommentDoc :=
  let ls := commentLines text
  let descLines := ls.takeWhile (fun l => (keywordLine? l).isNone)
  let rest := ls.dropWhile (fun l => (keywordLine? l).isNone)
  let desc := trimChars (joinWith '\n' descLines)
  { description := if desc = [] then none else some (String.mk desc)
  , keywords := collectKeywords rest }

/-- A comment block contains no keyword lines. -/
def noKeywordLines (text : String) : Bool :=
  (commentLines text).all (fun l => (keywordLine? l).isNone)

/-- Mirrors `SvelteDataItem` of `src/typings.d.ts` lines 79-88, with the
`ISvelteItem` base fields (lines 53-77) embedded by value. -/
structure SvelteDataItem where
  name : String
  loc : Option SourceLocation
  description : Option String
  visibility : Option Visibility
  keywords : Option (List JSDocKeyword)
  type : Option JSDocType
  value : Option JSValue

/-- Mirrors `SvelteComputedItem` of `src/typings.d.ts` lines 90-95. -/
structure SvelteComputedItem where
  name : String
  loc : Option SourceLocation
  description : Option String
  visibility : Option Visibility
  keywords : Option (List JSDocKeyword)
  dependencies : List String
deriving DecidableEq

/-- Mirrors `SvelteMethodArgumentItem` of `src/typings.d.ts` lines 97-122.
It does not embed the `ISvelteItem` base fields: there is no `loc`, no
`visibility` and no `keywords` field. -/
structure SvelteMethodArgumentItem where
  name : String
  type : JSDocType
  repeated : Option Bool
  optional : Option Bool
  default : Option String
  description : Option String

/-- Mirrors `SvelteMethodItem` of `src/typings.d.ts` lines 124-129; shared by
the `methods`, `actions`, `helpers` and `transitions` lists. -/
structure SvelteMethodItem where
  name : String
  loc : Option SourceLocation
  description : Option String
  visibility : Option Visibility
  keywords : Option (List JSDocKeyword)
  args : Option (List SvelteMethodArgumentItem)

/-- Mirrors `SvelteComponentItem` of `src/typings.d.ts` lines 131-136. -/
structure SvelteComponentItem where
  name : String
  loc : Option SourceLocation
  description : Option String
  visibility : Option Visibility
  keywords : Option (List JSDocKeyword)
  value : String
deriving DecidableEq

/-- Mirrors `SvelteRefItem` of `src/typings.d.ts` lines 163-168. -/
structure SvelteRefItem where
  name : String
  loc : Option SourceLocation
  description : Option String
  visibility : Option Visibility
  keywords : Option (List JSDocKeyword)
  parent : Option String
deriving DecidableEq

/-- Mirrors `SvelteEventItem` of `src/typings.d.ts` lines 138-143. -/
structure SvelteEventItem where
  name : String
  loc : Option SourceLocation
  description : Option String
  visibility : Option Visibility
  keywords : Option (List JSDocKeyword)
  parent : Option String
deriving DecidableEq

/-- Mirrors `SvelteSlotParameter` of `src/typings.d.ts` lines 150-152: the
`ISvelteItem` base shape with no additional field. -/
structure SvelteSlotParameter where
  name : String
  loc : Option SourceLocation
  description : Option String
  visibility : Option Visibility
  keywords : Option (List JSDocKeyword)
deriving DecidableEq

/-- Mirrors `SvelteSlotItem` of `src/typings.d.ts` lines 154-161. -/
structure SvelteSlotItem where
  name : String
  loc : Option SourceLocation
  description : Option String
  visibility : Option Visibility
  keywords : Option (List JSDocKeyword)
  parameters : Option (List SvelteSlotParameter)
deriving DecidableEq

/-- Mirrors `SvelteComponentDoc` of `src/typings.d.ts` lines 173-229, with
every item list of the schema. -/
structure SvelteComponentDoc where
  name : Option String
  version : Option Nat
  description : Option String
  data : List SvelteDataItem
  computed : List SvelteComputedItem
  components : List SvelteComponentItem
  events : List SvelteEventItem
  slots : List SvelteSlotItem
  refs : List SvelteRefItem
  methods : List SvelteMethodItem
  actions : List SvelteMethodItem
  helpers : List SvelteMethodItem
  transitions : List SvelteMethodItem

/-- The recognized extraction options (spec section 6); the dialect-version
option plays no role in any claim and is omitted. -/
structure Options where
  includeSourceLocations : Bool
  ignorePrivate : Bool
deriving DecidableEq

/-- Modelled from the spec (section 4.3): the marker/decoration convention
that routes an exposed callable into `methods` (no marker), `actions`,
`helpers` or `transitions`. -/
inductive Marker where
  | plain
  | action
  | helper
  | transition
deriving DecidableEq

/-- Modelled from the spec (section 4.3): one formal parameter of a callable
declaration — its name, optional annotation, optional default-value
expression, and whether it is a rest parameter. -/
structure Param where
  name : String
  ann : Option TypeAnnot
  defaultVal : Option Expr
  rest : Bool
deriving DecidableEq

/-- Modelled from the spec (section 4.3): the classified shape of one
top-level script declaration — a plain mutable binding, a reactive/derived
binding, or an exposed callable. -/
inductive DeclKind where
  | dataDecl (ann : Option TypeAnnot) (init : Option Expr)
  | computedDecl (expr : Expr)
  | callableDecl (marker : Marker) (params : List Param)
deriving DecidableEq

/-- Modelled from the spec: one top-level script declaration as delivered by
the Script AST Builder — name, source span, optional preceding comment
block, and classified kind. -/
structure Decl where
  name : String
  loc : SourceLocation
  comment : Option String
  kind : DeclKind
deriving DecidableEq

/-- Modelled from the spec (section 4.5): a component import statement. -/
structure ImportItem where
  name : String
  path : String
  loc : SourceLocation
deriving DecidableEq

/-- Modelled from the spec (section 4.5): one tag occurrence in the markup,
with the comment block immediately preceding it, when one exists. -/
structure MarkupTag where
  tag : String
  loc : SourceLocation
  comment : Option String
deriving DecidableEq

/-- Modelled from the spec (section 4.5): a ref-binding attribute, naming the
ref and the element/component tag it is bound to, with the comment block
immediately preceding the construct, when one exists. -/
structure RefBinding where
  name : String
  parent : String
  loc : SourceLocation
  comment : Option String
deriving DecidableEq

/-- Modelled from the spec (section 4.5): an event-binding attribute — the
event name, the tag of the element/component carrying the binding, whether
the event is a forwarded native DOM event (as opposed to a custom event
dispatched by the component's own script), and the comment block immediately
preceding the construct, when one exists. -/
structure EventBinding where
  name : String
  parent : String
  native : Bool
  loc : SourceLocation
  comment : Option String
deriving DecidableEq

/-- Modelled from the spec (section 4.5): one slot parameter declared on a
slot element. -/
structure SlotParamDef where
  name : String
  loc : SourceLocation
deriving DecidableEq

/-- Modelled from the spec (section 4.5): a slot element — its name (the
parser substitutes the reserved default name for an unnamed slot), its
declared parameters, and the comment block immediately preceding it, when
one exists. -/
structure SlotDef where
  name : String
  params : List SlotParamDef
  loc : SourceLocation
  comment : Option String
deriving DecidableEq

/-- Modelled from the spec: the parsed component source handed to the
Declaration Classifier and Markup Analyzer — the script declarations,
component imports, markup tag occurrences, event bindings, slot elements,
ref bindings, and the top-level component comment. -/
structure ComponentSource where
  scriptDecls : List Decl
  imports : List ImportItem
  tags : List MarkupTag
  events : List EventBinding
  slots : List SlotDef
  refs : List RefBinding
  topComment : Option String
deriving DecidableEq

/-- The category lists of the output that require per-list name uniqueness
(spec sections 3 and 7). -/
inductive Category where
  | data
  | computed
  | methods
  | actions
  | helpers
  | transitions
  | refs
deriving DecidableEq

/-- The uniqueness-checked categories, in checking order. -/
def allCategories : List Category :=
  [.data, .computed, .methods, .actions, .helpers, .transitions, .refs]

/-- The bucket a callable marker routes to (spec section 4.3: no marker
defaults to `methods`). -/
def bucketOf : Marker → Category
  | .plain => .methods
  | .action => .actions
  | .helper => .helpers
  | .transition => .transitions

/-- The category a classified declaration belongs to. -/
def declCategory : DeclKind → Category
  | .dataDecl _ _ => .data
  | .computedDecl _ => .computed
  | .callableDecl m _ => bucketOf m

/-- The script declarations of one category, in source order. -/
def catDecls (src : ComponentSource) (c : Category) : List Decl :=
  src.scriptDecls.filter (fun d => decide (declCategory d.kind = c))

/-- The candidate (name, location) pairs of one uniqueness-checked category:
script declarations for the script categories, ref bindings for `refs`. -/
def catPairs (src : ComponentSource) (c : Category) :
    List (String × SourceLocation) :=
  match c with
  | .refs => src.refs.map (fun r => (r.name, r.loc))
  | _ => (catDecls src c).map (fun d => (d.name, d.loc))

/-- Modelled from the spec (section 7): the unrecoverable extraction errors.
`duplicateName` carries the category, the colliding name, and the source
locations of both colliding items. -/
inductive ExtractError where
  | parseError (loc : SourceLocation) (msg : String)
  | duplicateName (category : Category) (name : String)
      (first second : SourceLocation)
deriving DecidableEq

/-- Every declared name of the source paired with its location: script
declarations, ref bindings and imports. -/
def declaredNamePairs (src : ComponentSource) :
    List (String × SourceLocation) :=
  src.scriptDecls.map (fun d => (d.name, d.loc))
    ++ src.refs.map (fun r => (r.name, r.loc))
    ++ src.imports.map (fun i => (i.name, i.loc))

/-- Modelled from the spec: parse-level identifier validation.  A parser
yields only well-formed identifier tokens; a malformed name is a
`ParseError` at that name's location. -/
def validateIdents (src : ComponentSource) : Option ExtractError :=
  ((declaredNamePairs src).find? (fun p => !isValidIdent p.1)).map
    (fun p => ExtractError.parseError p.2 "invalid identifier")

/-- Find the first pair of entries sharing a name: the earlier entry together
with the first later entry carrying the same name. -/
def findDup : List (String × SourceLocation) →
    Option (String × SourceLocation × SourceLocation)
  | [] => none
  | (n, l) :: rest =>
    match rest.find? (fun p => p.1 == n) with
    | some p => some (n, l, p.2)
    | none => findDup rest

/-- Modelled from the spec (section 7): scan the uniqueness-checked
categories in order and report the first name collision as a
`DuplicateNameError` carrying both source locations. -/
def firstDupError (src : ComponentSource) : List Category → Option ExtractError
  | [] => none
  | c :: cs =>
    match findDup (catPairs src c) with
    | some (n, l₁, l₂) => some (.duplicateName c n l₁ l₂)
    | none => firstDupError src cs

/-- The base `ISvelteItem` fields shared by every produced item. -/
structure ItemBase where
  loc : Option SourceLocation
  description : Option String
  visibility : Option Visibility
  keywords : Option (List JSDocKeyword)

/-- The visibility dictated by parsed comment keywords: `@private` and
`@protected` override the `public` default (spec section 4.3). -/
def visibilityFromKeywords (kws : List JSDocKeyword) : Visibility :=
  if kws.any (fun k => k.name == "private") then .private_
  else if kws.any (fun k => k.name == "protected") then .protected_
  else .public

/-- Modelled from the spec (sections 4.3 and 4.6): the base fields of an
item.  `loc` is attached only when requested by the options; description and
keywords come from the associated comment block, when one exists; visibility
defaults to `public`. -/
def mkBase (opts : Options) (l : SourceLocation) (c : Option String) :
    ItemBase :=
  let parsed := c.map parseComment
  { loc := if opts.includeSourceLocations then some l else none
  , description := parsed.bind (fun p => p.description)
  , visibility := some (visibilityFromKeywords ((parsed.map (fun p => p.keywords)).getD []))
  , keywords := parsed.map (fun p => p.keywords) }

/-- The names of all known data/computed properties, as consumed by the
Dependency Analyzer (spec section 4.4). -/
def knownNames (src : ComponentSource) : List String :=
  (catDecls src .data ++ catDecls src .computed).map (fun d => d.name)

/-- Modelled from the spec (section 4.3): build a `data` item from a plain
top-level binding; the initializer feeds the Type Resolver. -/
def mkDataItem (opts : Options) (d : Decl) : SvelteDataItem :=
  let b := mkBase opts d.loc d.comment
  match d.kind with
  | .dataDecl ann init =>
    { name := d.name, loc := b.loc, description := b.description
    , visibility := b.visibility, keywords := b.keywords
    , type := some (resolveType ann init), value := init.bind Expr.literal? }
  | _ =>
    { name := d.name, loc := b.loc, description := b.description
    , visibility := b.visibility, keywords := b.keywords
    , type := none, value := none }

/-- Modelled from the spec (sections 4.3 and 4.4): build a `computed` item;
its dependency list comes from the Dependency Analyzer. -/
def mkComputedItem (opts : Options) (src : ComponentSource) (d : Decl) :
    SvelteComputedItem :=
  let b := mkBase opts d.loc d.comment
  match d.kind with
  | .computedDecl e =>
    { name := d.name, loc := b.loc, description := b.description
    , visibility := b.visibility, keywords := b.keywords
    , dependencies := computeDependencies (knownNames src) d.name e }
  | _ =>
    { name := d.name, loc := b.loc, description := b.description
    , visibility := b.visibility, keywords := b.keywords
    , dependencies := [] }

/-- Modelled from the spec (section 4.3): convert one formal parameter to a
`SvelteMethodArgumentItem`.  A default-value expression marks the parameter
optional and records the stringified expression; a rest parameter is marked
repeated; a parameter with neither marker gets none of those fields. -/
def convertParam (p : Param) : SvelteMethodArgumentItem :=
  { name := p.name
  , type := resolveType p.ann none
  , repeated := if p.rest then some true else none
  , optional := if p.defaultVal.isSome then some true else none
  , default := p.defaultVal.map Expr.toCode
  , description := none }

/-- Modelled from the spec (section 4.3): build a callable item with its
converted parameter list. -/
def mkMethodItem (opts : Options) (d : Decl) : SvelteMethodItem :=
  let b := mkBase opts d.loc d.comment
  match d.kind with
  | .callableDecl _ params =>
    { name := d.name, loc := b.loc, description := b.description
    , visibility := b.visibility, keywords := b.keywords
    , args := some (params.map convertParam) }
  | _ =>
    { name := d.name, loc := b.loc, description := b.description
    , visibility := b.visibility, keywords := b.keywords
    , args := none }

/-- The import path an identifier resolves to, when it names an import. -/
def importPath (imports : List ImportItem) (n : String) : Option String :=
  (imports.find? (fun i => i.name == n)).map (fun i => i.path)

/-- Modelled from the spec (section 4.5): build a component-usage item from
the first markup occurrence of an imported component tag; the comment
preceding that occurrence populates description and keywords identically to
script-level items. -/
def mkComponentItem (opts : Options) (src : ComponentSource)
    (t : MarkupTag) : SvelteComponentItem :=
  let b := mkBase opts t.loc t.comment
  { name := t.tag, loc := b.loc, description := b.description
  , visibility := b.visibility, keywords := b.keywords
  , value := (importPath src.imports t.tag).getD "" }

/-- Modelled from the spec (section 4.5): build a ref item; the comment
preceding the construct populates description and keywords identically to
script-level items. -/
def mkRefItem (opts : Options) (r : RefBinding) : SvelteRefItem :=
  let b := mkBase opts r.loc r.comment
  { name := r.name, loc := b.loc, description := b.description
  , visibility := b.visibility, keywords := b.keywords
  , parent := some r.parent }

/-- Modelled from the spec (section 4.5): build an event item; `parent` is
the binding element's tag for a forwarded native DOM event and is left unset
for a custom event, and the comment preceding the construct populates
description and keywords identically to script-level items. -/
def mkEventItem (opts : Options) (ev : EventBinding) : SvelteEventItem :=
  let b := mkBase opts ev.loc ev.comment
  { name := ev.name, loc := b.loc, description := b.description
  , visibility := b.visibility, keywords := b.keywords
  , parent := if ev.native then some ev.parent else none }

/-- Modelled from the spec (section 4.5): build one exposed slot parameter. -/
def mkSlotParameter (opts : Options) (p : SlotParamDef) : SvelteSlotParameter :=
  { name := p.name
  , loc := if opts.includeSourceLocations then some p.loc else none
  , description := none, visibility := some .public, keywords := none }

/-- Modelled from the spec (section 4.5): build a slot item with its exposed
parameters; the comment preceding the slot element populates description and
keywords identically to script-level items. -/
def mkSlotItem (opts : Options) (sl : SlotDef) : SvelteSlotItem :=
  let b := mkBase opts sl.loc sl.comment
  { name := sl.name, loc := b.loc, description := b.description
  , visibility := b.visibility, keywords := b.keywords
  , parameters := some (sl.params.map (mkSlotParameter opts)) }

/-- Drop an item when `ignorePrivate` is set and its visibility is not
public (spec section 6). -/
def visKeep (opts : Options) (v : Option Visibility) : Bool :=
  !opts.ignorePrivate || v == some Visibility.public

/-- Modelled from the spec (section 4.5): the markup tags that match an
imported component identifier, collapsed to the first occurrence per name. -/
def usedComponentTags (src : ComponentSource) : List MarkupTag :=
  dedupBy (fun t => t.tag) []
    (src.tags.filter (fun t => (importPath src.imports t.tag).isSome))

/-- The callable items of one bucket. -/
def buildMethodsFor (src : ComponentSource) (opts : Options) (c : Category) :
    List SvelteMethodItem :=
  ((catDecls src c).map (mkMethodItem opts)).filter
    (fun it => visKeep opts it.visibility)

/-- Modelled from the spec (section 4.6): the Doc Assembler.  Merges the
classified candidates into the final documentation object, applying the
`ignorePrivate` filter and the location option. -/
def buildDoc (src : ComponentSource) (opts : Options) : SvelteComponentDoc :=
  { name := none
  , version := some 3
  , description := (src.topComment.map parseComment).bind (fun c => c.description)
  , data := ((catDecls src .data).map (mkDataItem opts)).filter
      (fun it => visKeep opts it.visibility)
  , computed := ((catDecls src .computed).map (mkComputedItem opts src)).filter
      (fun it => visKeep opts it.visibility)
  , components := ((usedComponentTags src).map (mkComponentItem opts src)).filter
      (fun it => visKeep opts it.visibility)
  , events := ((dedupBy (fun ev => ev.name) [] src.events).map
      (mkEventItem opts)).filter (fun it => visKeep opts it.visibility)
  , slots := (src.slots.map (mkSlotItem opts)).filter
      (fun it => visKeep opts it.visibility)
  , refs := (src.refs.map (mkRefItem opts)).filter
      (fun it => visKeep opts it.visibility)
  , methods := buildMethodsFor src opts .methods
  , actions := buildMethodsFor src opts .actions
  , helpers := buildMethodsFor src opts .helpers
  , transitions := buildMethodsFor src opts .transitions }

/-- Modelled from the spec (sections 6 and 7): the extraction entry point.
Parse-level identifier validation and the per-category duplicate-name check
run first; only when both pass is the complete document assembled and
returned — the caller receives either a complete document or a single
structured failure. -/
def extract (src : ComponentSource) (opts : Options) :
    Except ExtractError SvelteComponentDoc :=
  match validateIdents src with
  | some e => .error e
  | none =>
    match firstDupError src allCategories with
    | some e => .error e
    | none => .ok (buildDoc src opts)

/-- Options with everything off: no source locations, keep private items. -/
def optsNone : Options := ⟨false, false⟩

/-- The `force = false` parameter of the spec's `reset` scenario. -/
def sampleForce : Param := ⟨"force", none, some (.lit (.bool false)), false⟩

/-- The `...rest` parameter of the spec's `reset` scenario. -/
def sampleRest : Param := ⟨"rest", none, none, true⟩

/-- The parameter list of `reset(force = false, ...rest)`. -/
def sampleParams : List Param := [sampleForce, sampleRest]

/-- A small component source exercising every category: a commented `count`
data property, a `doubled` computed property reading `count`, a `reset`
method, an imported `Child` component used twice, a forwarded event, a slot
with one parameter, and one commented ref. -/
def sampleSrc : ComponentSource :=
  { scriptDecls :=
      [ { name := "count", loc := ⟨10, 20⟩, comment := some "Counter value"
        , kind := .dataDecl none (some (.lit (.num 0))) }
      , { name := "doubled", loc := ⟨30, 50⟩, comment := none
        , kind := .computedDecl (.binop "*" (.ident "count") (.lit (.num 2))) }
      , { name := "reset", loc := ⟨60, 90⟩, comment := none
        , kind := .callableDecl .plain sampleParams } ]
  , imports := [⟨"Child", "./Child.svelte", ⟨100, 110⟩⟩]
  , tags := [⟨"Child", ⟨120, 125⟩, none⟩, ⟨"Child", ⟨130, 135⟩, none⟩,
      ⟨"div", ⟨140, 145⟩, none⟩]
  , events := [⟨"click", "button", true, ⟨170, 180⟩, none⟩]
  , slots := [⟨"default", [⟨"item", ⟨190, 195⟩⟩], ⟨185, 200⟩, none⟩]
  , refs := [⟨"inputRef", "input", ⟨150, 160⟩, some "The input element"⟩]
  , topComment := none }

/-- The spec's duplicate-name scenario: two top-level properties both named
`value`. -/
def dupSrc : ComponentSource :=
  { scriptDecls :=
      [ { name := "value", loc := ⟨1, 2⟩, comment := none
        , kind := .dataDecl none none }
      , { name := "value", loc := ⟨3, 4⟩, comment := none
        , kind := .dataDecl none none } ]
  , imports := [], tags := [], events := [], slots := [], refs := []
  , topComment := none }

/-- The extraction result is a `DuplicateNameError` failure. -/
def isDuplicateError : Except ExtractError SvelteComponentDoc → Bool
  | .error (.duplicateName _ _ _ _) => true
  | _ => false

theorem dedupBy_sublist {α : Type} (key : α → String) (seen : List String)
    (l : List α) : List.Sublist (dedupBy key seen l) l := by
  induction l generalizing seen with
  | nil => simp [dedupBy]
  | cons x xs ih =>
    simp only [dedupBy]
    split
    · exact (ih seen).cons x
    · exact (ih _).cons₂ x

theorem mem_dedupBy {α : Type} (key : α → String) (seen : List String)
    (l : List α) (x : α) (hx : x ∈ dedupBy key seen l) :
    x ∈ l ∧ key x ∉ seen := by
  induction l generalizing seen with
  | nil => simp [dedupBy] at hx
  | cons y ys ih =>
    simp only [dedupBy] at hx
    split at hx
    · rcases ih seen hx with ⟨h₁, h₂⟩
      exact ⟨List.mem_cons_of_mem _ h₁, h₂⟩
    · rename_i hsee
      rcases List.mem_cons.mp hx with h | h
      · subst h
        refine ⟨List.mem_cons_self _ _, ?_⟩
        intro hmem
        exact hsee (List.elem_eq_true_of_mem hmem)
      · rcases ih _ h with ⟨h₁, h₂⟩
        refine ⟨List.mem_cons_of_mem _ h₁, ?_⟩
        intro hmem
        exact h₂ (List.mem_cons_of_mem _ hmem)

theorem dedupBy_key_nodup {α : Type} (key : α → String) (seen : List String)
    (l : List α) : ((dedupBy key seen l).map key).Nodup := by
  induction l generalizing seen with
  | nil => simp [dedupBy]
  | cons y ys ih =>
    simp only [dedupBy]
    split
    · exact ih seen
    · simp only [List.map_cons, List.nodup_cons]
      refine ⟨?_, ih _⟩
      intro hmem
      obtain ⟨x, hx, hkey⟩ := List.mem_map.mp hmem
      have h := (mem_dedupBy key _ _ _ hx).2
      rw [hkey] at h
      exact h (List.mem_cons_self _ _)

theorem findDup_eq_none_iff (ps : List (String × SourceLocation)) :
    findDup ps = none ↔ (ps.map Prod.fst).Nodup := by
  induction ps with
  | nil => simp [findDup]
  | cons p rest ih =>
    obtain ⟨n, l⟩ := p
    simp only [findDup, List.map_cons, List.nodup_cons]
    cases hf : rest.find? (fun q => q.1 == n) with
    | some q =>
      simp only [reduceCtorEq, false_iff, not_and]
      intro hn
      exfalso
      apply hn
      have hq := List.find?_some hf
      have hqm := List.mem_of_find?_eq_some hf
      refine List.mem_map.mpr ⟨q, hqm, ?_⟩
      simpa using hq
    | none =>
      rw [ih]
      have hn : ¬ n ∈ rest.map Prod.fst := by
        intro hm
        obtain ⟨q, hqm, hq1⟩ := List.mem_map.mp hm
        have h := List.find?_eq_none.mp hf q hqm
        simp [hq1] at h
      simp [hn]

theorem findDup_sublist (ps : List (String × SourceLocation)) (n : String)
    (l₁ l₂ : SourceLocation) (h : findDup ps = some (n, l₁, l₂)) :
    List.Sublist [(n, l₁), (n, l₂)] ps := by
  induction ps generalizing n l₁ l₂ with
  | nil => simp [findDup] at h
  | cons p rest ih =>
    obtain ⟨m, l⟩ := p
    simp only [findDup] at h
    cases hf : rest.find? (fun q => q.1 == m) with
    | some q =>
      rw [hf] at h
      simp only [Option.some.injEq, Prod.mk.injEq] at h
      obtain ⟨h₁, h₂, h₃⟩ := h
      have hq1 : q.1 = m := by simpa using List.find?_some hf
      have hqm : q ∈ rest := List.mem_of_find?_eq_some hf
      have hq : q = (m, l₂) := by
        rcases q with ⟨q₁, q₂⟩
        simp only [Prod.mk.injEq]
        exact ⟨hq1, h₃⟩
      rw [← h₁, ← h₂]
      refine List.Sublist.cons₂ _ (List.singleton_sublist.mpr ?_)
      rwa [hq] at hqm
    | none =>
      rw [hf] at h
      exact (ih _ _ _ h).cons _

theorem firstDupError_eq_none (src : ComponentSource) (cs : List Category)
    (h : firstDupError src cs = none) :
    ∀ c ∈ cs, findDup (catPairs src c) = none := by
  induction cs with
  | nil => intro c hc; simp at hc
  | cons c₀ cs₀ ih =>
    intro c hc
    simp only [firstDupError] at h
    cases hf : findDup (catPairs src c₀) with
    | some t =>
      rw [hf] at h
      obtain ⟨n, l₁, l₂⟩ := t
      simp at h
    | none =>
      rw [hf] at h
      rcases List.mem_cons.mp hc with h₁ | h₁
      · subst h₁; exact hf
      · exact ih h c h₁

theorem firstDupError_some (src : ComponentSource) (cs : List Category)
    (c : Category) (hc : c ∈ cs) (hdup : findDup (catPairs src c) ≠ none) :
    ∃ c' n l₁ l₂, firstDupError src cs = some (.duplicateName c' n l₁ l₂) ∧
      findDup (catPairs src c') = some (n, l₁, l₂) := by
  induction cs with
  | nil => simp at hc
  | cons c₀ cs₀ ih =>
    simp only [firstDupError]
    cases hf : findDup (catPairs src c₀) with
    | some t =>
      obtain ⟨n, l₁, l₂⟩ := t
      exact ⟨c₀, n, l₁, l₂, rfl, hf⟩
    | none =>
      rcases List.mem_cons.mp hc with h₁ | h₁
      · subst h₁; exact absurd hf hdup
      · exact ih h₁

theorem extract_ok_elim (src : ComponentSource) (opts : Options)
    (doc : SvelteComponentDoc) (h : extract src opts = .ok doc) :
    validateIdents src = none ∧ firstDupError src allCategories = none ∧
      doc = buildDoc src opts := by
  unfold extract at h
  cases hv : validateIdents src with
  | some e => rw [hv] at h; simp at h
  | none =>
    rw [hv] at h
    cases hd : firstDupError src allCategories with
    | some e => rw [hd] at h; simp at h
    | none =>
      rw [hd] at h
      simp only [Except.ok.injEq] at h
      exact ⟨rfl, rfl, h.symm⟩

/-- The per-category name lists of a produced document. -/
def docCatNames (doc : SvelteComponentDoc) : Category → List String
  | .data => doc.data.map (fun it => it.name)
  | .computed => doc.computed.map (fun it => it.name)
  | .methods => doc.methods.map (fun it => it.name)
  | .actions => doc.actions.map (fun it => it.name)
  | .helpers => doc.helpers.map (fun it => it.name)
  | .transitions => doc.transitions.map (fun it => it.name)
  | .refs => doc.refs.map (fun it => it.name)

theorem mkDataItem_name (opts : Options) (d : Decl) :
    (mkDataItem opts d).name = d.name := by
  unfold mkDataItem
  split <;> rfl

theorem mkComputedItem_name (opts : Options) (src : ComponentSource)
    (d : Decl) : (mkComputedItem opts src d).name = d.name := by
  unfold mkComputedItem
  split <;> rfl

theorem mkMethodItem_name (opts : Options) (d : Decl) :
    (mkMethodItem opts d).name = d.name := by
  unfold mkMethodItem
  split <;> rfl

theorem names_filter_map_sublist {α β : Type} (l : List α) (f : α → β)
    (p : β → Bool) (key : β → String) (g : α → String)
    (hf : ∀ a, key (f a) = g a) :
    List.Sublist (((l.map f).filter p).map key) (l.map g) := by
  have h₁ : List.Sublist (((l.map f).filter p).map key) ((l.map f).map key) :=
    (List.filter_sublist (l.map f)).map key
  rw [List.map_map] at h₁
  have h₂ : l.map (key ∘ f) = l.map g :=
    List.map_congr_left (fun a _ => hf a)
  rwa [h₂] at h₁

theorem catPairs_fst_script (src : ComponentSource) (c : Category)
    (h : c ≠ .refs) :
    (catPairs src c).map Prod.fst = (catDecls src c).map (fun d => d.name) := by
  cases c with
  | refs => exact absurd rfl h
  | data => simp [catPairs, List.map_map]
  | computed => simp [catPairs, List.map_map]
  | methods => simp [catPairs, List.map_map]
  | actions => simp [catPairs, List.map_map]
  | helpers => simp [catPairs, List.map_map]
  | transitions => simp [catPairs, List.map_map]

theorem catPairs_fst_refs (src : ComponentSource) :
    (catPairs src .refs).map Prod.fst = src.refs.map (fun r => r.name) := by
  simp [catPairs, List.map_map]

/-- The names of each produced category list form a sublist of the names of
that category's candidate pairs. -/
theorem docCatNames_sublist (src : ComponentSource) (opts : Options)
    (c : Category) :
    List.Sublist (docCatNames (buildDoc src opts) c)
      ((catPairs src c).map Prod.fst) := by
  cases c with
  | data =>
    rw [catPairs_fst_script src .data (by simp)]
    exact names_filter_map_sublist _ _ _ _ _ (mkDataItem_name opts)
  | computed =>
    rw [catPairs_fst_script src .computed (by simp)]
    exact names_filter_map_sublist _ _ _ _ _ (mkComputedItem_name opts src)
  | methods =>
    rw [catPairs_fst_script src .methods (by simp)]
    exact names_filter_map_sublist _ _ _ _ _ (mkMethodItem_name opts)
  | actions =>
    rw [catPairs_fst_script src .actions (by simp)]
    exact names_filter_map_sublist _ _ _ _ _ (mkMethodItem_name opts)
  | helpers =>
    rw [catPairs_fst_script src .helpers (by simp)]
    exact names_filter_map_sublist _ _ _ _ _ (mkMethodItem_name opts)
  | transitions =>
    rw [catPairs_fst_script src .transitions (by simp)]
    exact names_filter_map_sublist _ _ _ _ _ (mkMethodItem_name opts)
  | refs =>
    rw [catPairs_fst_refs src]
    exact names_filter_map_sublist _ _ _ _ _ (fun r => rfl)

theorem validateIdents_none (src : ComponentSource)
    (h : validateIdents src = none) :
    ∀ p ∈ declaredNamePairs src, isValidIdent p.1 = true := by
  intro p hp
  unfold validateIdents at h
  cases hf : (declaredNamePairs src).find? (fun p => !isValidIdent p.1) with
  | some q => rw [hf] at h; simp at h
  | none =>
    have h₂ := List.find?_eq_none.mp hf p hp
    simpa using h₂

theorem isValidIdent_ne_empty (s : String) (h : isValidIdent s = true) :
    s ≠ "" := by
  intro he
  subst he
  simp [isValidIdent] at h

/-- Every candidate name of a category is a declared name of the source. -/
theorem catPairs_fst_subset (src : ComponentSource) (c : Category)
    (n : String) (hn : n ∈ (catPairs src c).map Prod.fst) :
    ∃ l, (n, l) ∈ declaredNamePairs src := by
  cases c with
  | refs =>
    rw [catPairs_fst_refs src] at hn
    obtain ⟨r, hr, hrn⟩ := List.mem_map.mp hn
    refine ⟨r.loc, ?_⟩
    unfold declaredNamePairs
    refine List.mem_append.mpr (Or.inl (List.mem_append.mpr (Or.inr ?_)))
    exact List.mem_map.mpr ⟨r, hr, by rw [hrn]⟩
  | data =>
    rw [catPairs_fst_script src .data (by simp)] at hn
    obtain ⟨d, hd, hdn⟩ := List.mem_map.mp hn
    have hd₂ : d ∈ src.scriptDecls := List.mem_of_mem_filter hd
    refine ⟨d.loc, ?_⟩
    unfold declaredNamePairs
    refine List.mem_append.mpr (Or.inl (List.mem_append.mpr (Or.inl ?_)))
    exact List.mem_map.mpr ⟨d, hd₂, by rw [hdn]⟩
  | computed =>
    rw [catPairs_fst_script src .computed (by simp)] at hn
    obtain ⟨d, hd, hdn⟩ := List.mem_map.mp hn
    have hd₂ : d ∈ src.scriptDecls := List.mem_of_mem_filter hd
    refine ⟨d.loc, ?_⟩
    unfold declaredNamePairs
    refine List.mem_append.mpr (Or.inl (List.mem_append.mpr (Or.inl ?_)))
    exact List.mem_map.mpr ⟨d, hd₂, by rw [hdn]⟩
  | methods =>
    rw [catPairs_fst_script src .methods (by simp)] at hn
    obtain ⟨d, hd, hdn⟩ := List.mem_map.mp hn
    have hd₂ : d ∈ src.scriptDecls := List.mem_of_mem_filter hd
    refine ⟨d.loc, ?_⟩
    unfold declaredNamePairs
    refine List.mem_append.mpr (Or.inl (List.mem_append.mpr (Or.inl ?_)))
    exact List.mem_map.mpr ⟨d, hd₂, by rw [hdn]⟩
  | actions =>
    rw [catPairs_fst_script src .actions (by simp)] at hn
    obtain ⟨d, hd, hdn⟩ := List.mem_map.mp hn
    have hd₂ : d ∈ src.scriptDecls := List.mem_of_mem_filter hd
    refine ⟨d.loc, ?_⟩
    unfold declaredNamePairs
    refine List.mem_append.mpr (Or.inl (List.mem_append.mpr (Or.inl ?_)))
    exact List.mem_map.mpr ⟨d, hd₂, by rw [hdn]⟩
  | helpers =>
    rw [catPairs_fst_script src .helpers (by simp)] at hn
    obtain ⟨d, hd, hdn⟩ := List.mem_map.mp hn
    have hd₂ : d ∈ src.scriptDecls := List.mem_of_mem_filter hd
    refine ⟨d.loc, ?_⟩
    unfold declaredNamePairs
    refine List.mem_append.mpr (Or.inl (List.mem_append.mpr (Or.inl ?_)))
    exact List.mem_map.mpr ⟨d, hd₂, by rw [hdn]⟩
  | transitions =>
    rw [catPairs_fst_script src .transitions (by simp)] at hn
    obtain ⟨d, hd, hdn⟩ := List.mem_map.mp hn
    have hd₂ : d ∈ src.scriptDecls := List.mem_of_mem_filter hd
    refine ⟨d.loc, ?_⟩
    unfold declaredNamePairs
    refine List.mem_append.mpr (Or.inl (List.mem_append.mpr (Or.inl ?_)))
    exact List.mem_map.mpr ⟨d, hd₂, by rw [hdn]⟩

/-- C1: For every successful extraction, within each of the category lists
data, computed, methods, actions, helpers, transitions, and refs
individually, item names are unique and every item's name is non-empty; and
whenever two candidate items in the same such category share a name, extract
does not return a document but fails with a DuplicateNameError carrying both
source locations.  (The non-collision precondition of the failure branch is
that parse-level identifier validation passed, since a malformed identifier
is reported as a ParseError first.) -/
theorem extract_category_names_unique (src : ComponentSource) (opts : Options) :
    (∀ doc, extract src opts = .ok doc → ∀ c ∈ allCategories,
        (docCatNames doc c).Nodup ∧ ∀ n ∈ docCatNames doc c, n ≠ "")
    ∧ (validateIdents src = none →
        ∀ c ∈ allCategories, ¬ ((catPairs src c).map Prod.fst).Nodup →
          ∃ c' n l₁ l₂, extract src opts = .error (.duplicateName c' n l₁ l₂) ∧
            List.Sublist [(n, l₁), (n, l₂)] (catPairs src c')) := by
  constructor
  · intro doc hok c hc
    obtain ⟨hv, hd, hdoc⟩ := extract_ok_elim src opts doc hok
    have hnone := firstDupError_eq_none src allCategories hd c hc
    have hnodup : ((catPairs src c).map Prod.fst).Nodup :=
      (findDup_eq_none_iff _).mp hnone
    subst hdoc
    refine ⟨hnodup.sublist (docCatNames_sublist src opts c), ?_⟩
    intro n hn
    have hn₂ : n ∈ (catPairs src c).map Prod.fst :=
      (docCatNames_sublist src opts c).subset hn
    obtain ⟨l, hl⟩ := catPairs_fst_subset src c n hn₂
    have hval := validateIdents_none src hv (n, l) hl
    exact isValidIdent_ne_empty n hval
  · intro hv c hc hnodup
    have hdup : findDup (catPairs src c) ≠ none := by
      intro h
      exact hnodup ((findDup_eq_none_iff _).mp h)
    obtain ⟨c', n, l₁, l₂, herr, hfind⟩ :=
      firstDupError_some src allCategories c hc hdup
    refine ⟨c', n, l₁, l₂, ?_, findDup_sublist _ _ _ _ hfind⟩
    unfold extract
    rw [hv, herr]

theorem extract_category_names_unique_witness :
    (docCatNames (buildDoc sampleSrc optsNone) Category.data).Nodup ∧
    isDuplicateError (extract dupSrc optsNone) = true := by
  constructor
  · exact ((extract_category_names_unique sampleSrc optsNone).1
      (buildDoc sampleSrc optsNone) rfl Category.data (by decide)).1
  · obtain ⟨c', n, l₁, l₂, herr, hsub⟩ :=
      (extract_category_names_unique dupSrc optsNone).2 rfl Category.data
        (by decide) (by decide)
    rw [herr]
    rfl

theorem resolveAnnot_wf (a : TypeAnnot) : (resolveAnnot a).wf = true := by
  induction a with
  | name s => simp [resolveAnnot, JSDocType.wf]
  | union a b iha ihb =>
    simp only [resolveAnnot]
    simp [JSDocType.wf, JSDocType.wfList, iha, ihb]
  | unknown => simp [resolveAnnot, anyType, JSDocType.wf]

theorem resolveType_wf (ann : Option TypeAnnot) (init : Option Expr) :
    (resolveType ann init).wf = true := by
  cases ann with
  | some a => simpa [resolveType] using resolveAnnot_wf a
  | none =>
    cases init with
    | none => simp [resolveType, anyType, JSDocType.wf]
    | some e =>
      simp only [resolveType]
      cases he : e.literal? with
      | some v => simp [JSDocType.wf]
      | none => simp [anyType, JSDocType.wf]

/-- Every `JSDocType` reachable in a produced document: the data item types
and the callable argument types.  Union alternatives nested inside these are
reached recursively by `JSDocType.wf`. -/
def docTypes (doc : SvelteComponentDoc) : List JSDocType :=
  doc.data.filterMap (fun it => it.type)
    ++ (doc.methods ++ doc.actions ++ doc.helpers ++ doc.transitions).flatMap
        (fun m => (m.args.getD []).map (fun a => a.type))

theorem mem_buildDoc_data (src : ComponentSource) (opts : Options)
    (it : SvelteDataItem) (h : it ∈ (buildDoc src opts).data) :
    ∃ d, it = mkDataItem opts d := by
  simp only [buildDoc] at h
  have h₂ := List.mem_of_mem_filter h
  obtain ⟨d, hd, hdi⟩ := List.mem_map.mp h₂
  exact ⟨d, hdi.symm⟩

theorem mem_buildMethodsFor (src : ComponentSource) (opts : Options)
    (c : Category) (m : SvelteMethodItem) (h : m ∈ buildMethodsFor src opts c) :
    ∃ d, m = mkMethodItem opts d := by
  unfold buildMethodsFor at h
  have h₂ := List.mem_of_mem_filter h
  obtain ⟨d, hd, hdi⟩ := List.mem_map.mp h₂
  exact ⟨d, hdi.symm⟩

theorem mkDataItem_type_wf (opts : Options) (d : Decl) (t : JSDocType)
    (h : (mkDataItem opts d).type = some t) : t.wf = true := by
  unfold mkDataItem at h
  split at h
  · simp only [Option.some.injEq] at h
    subst h
    exact resolveType_wf _ _
  · simp at h

theorem mkMethodItem_argType_wf (opts : Options) (d : Decl) (t : JSDocType)
    (h : t ∈ ((mkMethodItem opts d).args.getD []).map (fun a => a.type)) :
    t.wf = true := by
  unfold mkMethodItem at h
  split at h
  · simp only [Option.getD_some, List.map_map] at h
    obtain ⟨p, hp, hpt⟩ := List.mem_map.mp h
    have hpt₂ : (convertParam p).type = t := hpt
    rw [← hpt₂]
    unfold convertParam
    exact resolveType_wf _ _
  · simp at h

/-- C2: For every JSDocType value appearing anywhere in an extraction result
(including nested union alternatives): if kind = union then its type field is
a sequence of at least two JSDocType alternatives, and if kind = const then
its value field is present — every reachable type satisfies the recursive
well-formedness predicate `JSDocType.wf`. -/
theorem docTypes_wf (src : ComponentSource) (opts : Options)
    (doc : SvelteComponentDoc) (h : extract src opts = .ok doc) :
    ∀ t ∈ docTypes doc, t.wf = true := by
  obtain ⟨-, -, hdoc⟩ := extract_ok_elim src opts doc h
  subst hdoc
  intro t ht
  rcases List.mem_append.mp ht with h₁ | h₁
  · obtain ⟨it, hit, hty⟩ := List.mem_filterMap.mp h₁
    obtain ⟨d, hd⟩ := mem_buildDoc_data src opts it hit
    subst hd
    exact mkDataItem_type_wf opts d t hty
  · obtain ⟨m, hm, ht₂⟩ := List.mem_flatMap.mp h₁
    have hm₂ : ∃ d, m = mkMethodItem opts d := by
      rcases List.mem_append.mp hm with h₂ | h₂
      · rcases List.mem_append.mp h₂ with h₃ | h₃
        · rcases List.mem_append.mp h₃ with h₄ | h₄
          · exact mem_buildMethodsFor src opts .methods m h₄
          · exact mem_buildMethodsFor src opts .actions m h₄
        · exact mem_buildMethodsFor src opts .helpers m h₃
      · exact mem_buildMethodsFor src opts .transitions m h₂
    obtain ⟨d, hd⟩ := hm₂
    subst hd
    exact mkMethodItem_argType_wf opts d t ht₂

theorem docTypes_wf_witness :
    (docTypes (buildDoc sampleSrc optsNone)).all JSDocType.wf = true := by
  refine List.all_eq_true.mpr ?_
  intro t ht
  exact docTypes_wf sampleSrc optsNone (buildDoc sampleSrc optsNone) rfl t ht

theorem freeRefs_not_bound (e : Expr) (bound : List String) (n : String)
    (hn : n ∈ bound) : n ∉ e.freeRefs bound := by
  induction e generalizing bound with
  | ident m =>
    intro hmem
    simp only [Expr.freeRefs] at hmem
    split at hmem
    · simp at hmem
    · rename_i h
      rw [List.mem_singleton] at hmem
      subst hmem
      exact h (List.elem_eq_true_of_mem hn)
  | lit v => simp [Expr.freeRefs]
  | unop op a ih => exact ih bound hn
  | binop op a b iha ihb =>
    intro hmem
    rcases List.mem_append.mp hmem with h | h
    · exact iha bound hn h
    · exact ihb bound hn h
  | call f a ihf iha =>
    intro hmem
    rcases List.mem_append.mp hmem with h | h
    · exact ihf bound hn h
    · exact iha bound hn h
  | member o f ih => exact ih bound hn
  | lam ps b ih =>
    intro hmem
    exact ih (ps ++ bound) (List.mem_append.mpr (Or.inr hn)) hmem
  | cond c t e ihc iht ihe =>
    intro hmem
    rcases List.mem_append.mp hmem with h | h
    · rcases List.mem_append.mp h with h₂ | h₂
      · exact ihc bound hn h₂
      · exact iht bound hn h₂
    · exact ihe bound hn h

theorem mem_computeDependencies (known : List String) (self : String)
    (e : Expr) (n : String) (h : n ∈ computeDependencies known self e) :
    n ∈ known ∧ n ≠ self := by
  unfold computeDependencies at h
  have h₂ := (mem_dedupBy _ _ _ _ h).1
  have h₃ := List.mem_filter.mp h₂
  have h₄ := h₃.2
  rw [Bool.and_eq_true] at h₄
  constructor
  · exact List.mem_of_elem_eq_true h₄.1
  · intro he
    subst he
    simp at h₄

theorem computeDependencies_nodup (known : List String) (self : String)
    (e : Expr) : (computeDependencies known self e).Nodup := by
  unfold computeDependencies
  have h := dedupBy_key_nodup id []
    ((e.freeRefs []).filter (fun n => known.contains n && !(n == self)))
  simpa using h

theorem computeDependencies_sublist (known : List String) (self : String)
    (e : Expr) :
    List.Sublist (computeDependencies known self e) (e.freeRefs []) :=
  (dedupBy_sublist _ _ _).trans (List.filter_sublist _)

theorem mem_buildDoc_computed (src : ComponentSource) (opts : Options)
    (it : SvelteComputedItem) (h : it ∈ (buildDoc src opts).computed) :
    ∃ d, d ∈ catDecls src .computed ∧ it = mkComputedItem opts src d := by
  simp only [buildDoc] at h
  have h₂ := List.mem_of_mem_filter h
  obtain ⟨d, hd, hdi⟩ := List.mem_map.mp h₂
  exact ⟨d, hd, hdi.symm⟩

theorem dedupBy_id_spec (seen : List String) (l : List String) :
    dedupBy id seen l
      = (specFirstOccurrences l).filter (fun y => !(seen.contains y)) := by
  induction l generalizing seen with
  | nil => rfl
  | cons x xs ih =>
    simp only [dedupBy, specFirstOccurrences, id_eq, List.filter_cons]
    by_cases hx : seen.contains x = true
    · simp only [hx, if_true, Bool.not_true, Bool.false_eq_true, if_false]
      rw [ih seen, List.filter_filter]
      refine List.filter_congr (fun y hy => ?_)
      by_cases hcy : y ∈ seen
      · have hb : seen.contains y = true := List.elem_eq_true_of_mem hcy
        rw [hb]
        simp
      · have hb : seen.contains y = false := by
          rw [Bool.eq_false_iff]
          intro hb₂
          exact hcy (List.mem_of_elem_eq_true hb₂)
        have hyx : (y == x) = false := by
          refine beq_false_of_ne ?_
          intro he
          rw [he] at hcy
          exact hcy (List.mem_of_elem_eq_true hx)
        rw [hb, hyx]
        simp
    · have hx₂ : seen.contains x = false := Bool.eq_false_iff.mpr hx
      simp only [hx₂, Bool.false_eq_true, if_false, Bool.not_false, if_true]
      rw [ih (x :: seen)]
      congr 1
      rw [List.filter_filter]
      refine List.filter_congr (fun y hy => ?_)
      rw [List.contains_cons, Bool.not_or]
      rw [Bool.and_comm]

theorem mem_specFirstOccurrences (l : List String) (n : String) :
    n ∈ specFirstOccurrences l ↔ n ∈ l := by
  induction l with
  | nil => simp [specFirstOccurrences]
  | cons x xs ih =>
    simp only [specFirstOccurrences, List.mem_cons]
    constructor
    · rintro (rfl | h)
      · exact Or.inl rfl
      · exact Or.inr (ih.mp (List.mem_of_mem_filter h))
    · rintro (rfl | h)
      · exact Or.inl rfl
      · by_cases hx : n = x
        · exact Or.inl hx
        · refine Or.inr (List.mem_filter.mpr ⟨ih.mpr h, ?_⟩)
          simpa using hx

theorem computeDependencies_eq_spec (known : List String) (self : String)
    (e : Expr) :
    computeDependencies known self e = specDependencies known self e := by
  unfold computeDependencies specDependencies
  rw [dedupBy_id_spec]
  refine Eq.trans (List.filter_congr (fun y hy => ?_)) (List.filter_true _)
  rfl

theorem mem_computeDependencies_of (known : List String) (self : String)
    (e : Expr) (n : String) (h₁ : n ∈ e.freeRefs []) (h₂ : n ∈ known)
    (h₃ : n ≠ self) : n ∈ computeDependencies known self e := by
  rw [computeDependencies_eq_spec]
  unfold specDependencies
  rw [mem_specFirstOccurrences]
  refine List.mem_filter.mpr ⟨h₁, ?_⟩
  rw [Bool.and_eq_true]
  refine ⟨List.elem_eq_true_of_mem h₂, ?_⟩
  simp [h₃]

theorem mkComputedItem_dep_props (opts : Options) (src : ComponentSource)
    (d : Decl) :
    (mkComputedItem opts src d).dependencies.Nodup ∧
    (mkComputedItem opts src d).name ∉ (mkComputedItem opts src d).dependencies ∧
    ∀ n ∈ (mkComputedItem opts src d).dependencies, n ∈ knownNames src := by
  unfold mkComputedItem
  split
  · rename_i e
    refine ⟨computeDependencies_nodup _ _ _, ?_, ?_⟩
    · intro hmem
      exact absurd rfl (mem_computeDependencies _ _ _ _ hmem).2
    · intro n hn
      exact (mem_computeDependencies _ _ _ _ hn).1
  · simp

/-- C3: For every computed item in the output, its dependencies field is
exactly the Dependency Analyzer's result for the item's defining expression:
a duplicate-free list of known data/computed names never containing the
item's own name.  The analyzer itself agrees with the specification-side
first-occurrence definition `specDependencies` (forcing completeness — every
statically read known name other than the item itself appears — and
first-occurrence order), every such name is indeed a member of the result,
identifiers shadowed by local bindings are never collected, and the result
is a sublist of the in-order free-reference sequence. -/
theorem extract_computed_dependencies (src : ComponentSource) (opts : Options) :
    (∀ doc, extract src opts = .ok doc → ∀ c ∈ doc.computed,
        c.dependencies.Nodup ∧ c.name ∉ c.dependencies ∧
        (∀ n ∈ c.dependencies, n ∈ knownNames src) ∧
        ∃ d e, d ∈ catDecls src Category.computed ∧
          d.kind = DeclKind.computedDecl e ∧ c.name = d.name ∧
          c.dependencies = computeDependencies (knownNames src) d.name e)
    ∧ (∀ (known : List String) (self : String) (e : Expr),
        computeDependencies known self e = specDependencies known self e)
    ∧ (∀ (known : List String) (self : String) (e : Expr) (n : String),
        n ∈ e.freeRefs [] → n ∈ known → n ≠ self →
        n ∈ computeDependencies known self e)
    ∧ (∀ (e : Expr) (bound : List String) (n : String), n ∈ bound →
        n ∉ e.freeRefs bound)
    ∧ (∀ (known : List String) (self : String) (e : Expr),
        List.Sublist (computeDependencies known self e) (e.freeRefs [])) := by
  refine ⟨?_, computeDependencies_eq_spec, mem_computeDependencies_of,
    fun e bound n hn => freeRefs_not_bound e bound n hn,
    fun known self e => computeDependencies_sublist known self e⟩
  intro doc hok c hc
  obtain ⟨-, -, hdoc⟩ := extract_ok_elim src opts doc hok
  subst hdoc
  obtain ⟨d, hd, hdi⟩ := mem_buildDoc_computed src opts c hc
  subst hdi
  have hprops := mkComputedItem_dep_props opts src d
  refine ⟨hprops.1, hprops.2.1, hprops.2.2, ?_⟩
  have hcat : declCategory d.kind = Category.computed := by
    have h₂ := List.mem_filter.mp hd
    simpa using h₂.2
  cases hk : d.kind with
  | dataDecl a i =>
    rw [hk] at hcat
    simp [declCategory] at hcat
  | computedDecl e =>
    refine ⟨d, e, hd, hk, mkComputedItem_name opts src d, ?_⟩
    simp [mkComputedItem, hk]
  | callableDecl m p =>
    rw [hk] at hcat
    cases m <;> simp [declCategory, bucketOf] at hcat

/-- The `doubled` declaration of the sample source. -/
def sampleDoubledDecl : Decl :=
  { name := "doubled", loc := ⟨30, 50⟩, comment := none
  , kind := .computedDecl (.binop "*" (.ident "count") (.lit (.num 2))) }

/-- The defining expression of the sample's `doubled` computed property. -/
def sampleDoubledExpr : Expr :=
  .binop "*" (.ident "count") (.lit (.num 2))

theorem extract_computed_dependencies_witness :
    (mkComputedItem optsNone sampleSrc sampleDoubledDecl).dependencies.Nodup ∧
    (mkComputedItem optsNone sampleSrc sampleDoubledDecl).name ∉
      (mkComputedItem optsNone sampleSrc sampleDoubledDecl).dependencies ∧
    "count" ∈ computeDependencies (knownNames sampleSrc) "doubled"
      sampleDoubledExpr ∧
    computeDependencies (knownNames sampleSrc) "doubled" sampleDoubledExpr
      = specDependencies (knownNames sampleSrc) "doubled" sampleDoubledExpr ∧
    "count" ∉ (Expr.ident "count").freeRefs ["count"] := by
  have h := extract_computed_dependencies sampleSrc optsNone
  have h₁ := h.1 (buildDoc sampleSrc optsNone) rfl
    (mkComputedItem optsNone sampleSrc sampleDoubledDecl) (by decide)
  refine ⟨h₁.1, h₁.2.1, ?_, h.2.1 (knownNames sampleSrc) "doubled"
    sampleDoubledExpr, h.2.2.2.1 (Expr.ident "count") ["count"] "count"
    (by decide)⟩
  exact h.2.2.1 (knownNames sampleSrc) "doubled" sampleDoubledExpr "count"
    (by decide) (by decide) (by decide)

/-- C4: Type resolution is a total function: for every input (annotation,
initializer, both, or neither) it returns a well-formed type and never
throws, and for any unresolvable or absent type it returns the fallback
JSDocType with kind = type, type = "any", and no value field. -/
theorem resolveType_total_fallback :
    (∀ (ann : Option TypeAnnot) (init : Option Expr),
        (resolveType ann init).wf = true)
    ∧ resolveType none none = anyType
    ∧ resolveAnnot .unknown = anyType
    ∧ (∀ e : Expr, e.literal? = none → resolveType none (some e) = anyType)
    ∧ anyType = JSDocType.mk .type "any" (.inl "any") none := by
  refine ⟨resolveType_wf, rfl, rfl, ?_, rfl⟩
  intro e he
  simp [resolveType, he]

theorem resolveType_total_fallback_witness :
    (resolveType none none).wf = true ∧
    resolveType none (some (Expr.ident "x")) = anyType := by
  refine ⟨resolveType_total_fallback.1 none none, ?_⟩
  exact resolveType_total_fallback.2.2.2.1 (Expr.ident "x") rfl

/-- Modelled from the spec: the script parser accepts a rest parameter only
in the last position of a parameter list, so classified parameter lists
satisfy this predicate. -/
def restOnlyLast : List Param → Bool
  | [] => true
  | [_] => true
  | p :: q :: rest => !p.rest && restOnlyLast (q :: rest)

theorem convertParam_repeated_last (params : List Param)
    (h : restOnlyLast params = true) :
    ∀ a ∈ (params.map convertParam).dropLast, a.repeated ≠ some true := by
  induction params with
  | nil => simp
  | cons p ps ih =>
    cases ps with
    | nil => simp
    | cons q rest =>
      have h₂ : (!p.rest && restOnlyLast (q :: rest)) = true := h
      rw [Bool.and_eq_true] at h₂
      intro a ha
      have hmap : ((p :: q :: rest).map convertParam).dropLast
          = convertParam p :: ((q :: rest).map convertParam).dropLast := rfl
      rw [hmap] at ha
      rcases List.mem_cons.mp ha with h₁ | h₁
      · subst h₁
        have hp : p.rest = false := by simpa using h₂.1
        unfold convertParam
        simp [hp]
      · exact ih h₂.2 a h₁

/-- C5: For every classified callable's parameter list, the produced
SvelteMethodArgumentItem entries satisfy: a parameter with a default-value
expression gets optional = true and default = the stringified expression; a
trailing rest parameter gets repeated = true; only the last parameter may
have repeated = true; parameters with neither marker are required (no
optional, repeated, or default fields). -/
theorem convertParam_markers (params : List Param)
    (h : restOnlyLast params = true) :
    (∀ p ∈ params,
        (∀ e, p.defaultVal = some e →
            (convertParam p).optional = some true ∧
            (convertParam p).default = some e.toCode)
        ∧ (p.rest = true → (convertParam p).repeated = some true)
        ∧ (p.defaultVal = none → p.rest = false →
            (convertParam p).optional = none ∧
            (convertParam p).default = none ∧
            (convertParam p).repeated = none))
    ∧ (∀ a ∈ (params.map convertParam).dropLast, a.repeated ≠ some true) := by
  refine ⟨?_, convertParam_repeated_last params h⟩
  intro p hp
  refine ⟨?_, ?_, ?_⟩
  · intro e he
    unfold convertParam
    simp [he]
  · intro hr
    unfold convertParam
    simp [hr]
  · intro hd hr
    unfold convertParam
    simp [hd, hr]

theorem convertParam_markers_witness :
    (convertParam sampleForce).optional = some true ∧
    (convertParam sampleForce).default = some "false" ∧
    (convertParam sampleRest).repeated = some true := by
  have h := convertParam_markers sampleParams (by decide)
  have hf := h.1 sampleForce (by decide)
  have hr := h.1 sampleRest (by decide)
  exact ⟨(hf.1 _ rfl).1, (hf.1 (Expr.lit (JSValue.bool false)) rfl).2,
    hr.2.1 rfl⟩

theorem collectKeywordsAux_none (ls : List (List Char))
    (h : ∀ l ∈ ls, keywordLine? l = none) :
    collectKeywordsAux none ls = [] := by
  induction ls with
  | nil => rfl
  | cons l ls ih =>
    have hl := h l (List.mem_cons_self _ _)
    simp only [collectKeywordsAux, hl]
    exact ih (fun x hx => h x (List.mem_cons_of_mem _ hx))

theorem parseComment_keywords_nil (text : String)
    (h : noKeywordLines text = true) : (parseComment text).keywords = [] := by
  unfold parseComment
  unfold noKeywordLines at h
  rw [List.all_eq_true] at h
  have hdrop : (commentLines text).dropWhile
      (fun l => (keywordLine? l).isNone) = [] := by
    rw [List.dropWhile_eq_nil_iff]
    intro x hx
    simpa using h x hx
  simp only [hdrop]
  rfl

/-- C6: For every item that has an associated comment block, the item's
keywords field is present (an empty sequence when the comment contains no
keyword lines), never absent.  Every item constructor — the script-level
data/computed/callable builders and the markup-level component, ref, event
and slot builders alike — records `some (parseComment c).keywords` whenever
its construct carries a comment block `c`, and the parsed keyword list of a
block with no keyword lines is the empty sequence. -/
theorem item_keywords_present (opts : Options) (src : ComponentSource)
    (d : Decl) (t : MarkupTag) (r : RefBinding) (ev : EventBinding)
    (sl : SlotDef) (c : String) :
    (d.comment = some c →
        (mkDataItem opts d).keywords = some ((parseComment c).keywords)
        ∧ (mkComputedItem opts src d).keywords = some ((parseComment c).keywords)
        ∧ (mkMethodItem opts d).keywords = some ((parseComment c).keywords))
    ∧ (t.comment = some c →
        (mkComponentItem opts src t).keywords = some ((parseComment c).keywords))
    ∧ (r.comment = some c →
        (mkRefItem opts r).keywords = some ((parseComment c).keywords))
    ∧ (ev.comment = some c →
        (mkEventItem opts ev).keywords = some ((parseComment c).keywords))
    ∧ (sl.comment = some c →
        (mkSlotItem opts sl).keywords = some ((parseComment c).keywords))
    ∧ (noKeywordLines c = true → (parseComment c).keywords = []) := by
  refine ⟨?_, ?_, ?_, ?_, ?_, parseComment_keywords_nil c⟩
  · intro h
    have hb : (mkBase opts d.loc d.comment).keywords
        = some ((parseComment c).keywords) := by
      rw [h]
      rfl
    refine ⟨?_, ?_, ?_⟩
    · unfold mkDataItem
      split <;> exact hb
    · unfold mkComputedItem
      split <;> exact hb
    · unfold mkMethodItem
      split <;> exact hb
  · intro h
    show (mkBase opts t.loc t.comment).keywords = some ((parseComment c).keywords)
    rw [h]
    rfl
  · intro h
    show (mkBase opts r.loc r.comment).keywords = some ((parseComment c).keywords)
    rw [h]
    rfl
  · intro h
    show (mkBase opts ev.loc ev.comment).keywords = some ((parseComment c).keywords)
    rw [h]
    rfl
  · intro h
    show (mkBase opts sl.loc sl.comment).keywords = some ((parseComment c).keywords)
    rw [h]
    rfl

theorem item_keywords_present_witness :
    (mkDataItem optsNone
        { name := "count", loc := ⟨10, 20⟩, comment := some "Counter value"
        , kind := .dataDecl none (some (.lit (.num 0))) }).keywords
      = some []
    ∧ (mkRefItem optsNone
        ⟨"inputRef", "input", ⟨150, 160⟩, some "The input element"⟩).keywords
      = some [] := by
  have h := item_keywords_present optsNone sampleSrc
    { name := "count", loc := ⟨10, 20⟩, comment := some "Counter value"
    , kind := .dataDecl none (some (.lit (.num 0))) }
    ⟨"Child", ⟨120, 125⟩, none⟩
    ⟨"inputRef", "input", ⟨150, 160⟩, some "The input element"⟩
    ⟨"click", "button", true, ⟨170, 180⟩, none⟩
    ⟨"default", [⟨"item", ⟨190, 195⟩⟩], ⟨185, 200⟩, none⟩
  constructor
  · rw [((h "Counter value").1 rfl).1, (h "Counter value").2.2.2.2.2 (by decide)]
  · rw [(h "The input element").2.2.1 rfl,
      (h "The input element").2.2.2.2.2 (by decide)]

/-- No item anywhere in the document carries a source location: every list
of the schema is covered, and slot parameters are checked inside their slot
items. -/
def noLocs (doc : SvelteComponentDoc) : Bool :=
  doc.data.all (fun it => it.loc.isNone) &&
  doc.computed.all (fun it => it.loc.isNone) &&
  doc.components.all (fun it => it.loc.isNone) &&
  doc.events.all (fun it => it.loc.isNone) &&
  doc.slots.all (fun it => it.loc.isNone &&
    (it.parameters.getD []).all (fun p => p.loc.isNone)) &&
  doc.refs.all (fun it => it.loc.isNone) &&
  doc.methods.all (fun it => it.loc.isNone) &&
  doc.actions.all (fun it => it.loc.isNone) &&
  doc.helpers.all (fun it => it.loc.isNone) &&
  doc.transitions.all (fun it => it.loc.isNone)

theorem filter_map_all {α β : Type} (l : List α) (f : α → β)
    (p q : β → Bool) (hf : ∀ a, q (f a) = true) :
    ((l.map f).filter p).all q = true := by
  rw [List.all_eq_true]
  intro b hb
  have h₂ := List.mem_of_mem_filter hb
  obtain ⟨a, ha, hab⟩ := List.mem_map.mp h₂
  rw [← hab]
  exact hf a

theorem filter_map_all_isNone {α β : Type} (l : List α) (f : α → β)
    (p : β → Bool) (locf : β → Option SourceLocation)
    (hf : ∀ a, locf (f a) = none) :
    ((l.map f).filter p).all (fun b => (locf b).isNone) = true := by
  refine filter_map_all l f p _ (fun a => ?_)
  simp [hf a]

theorem mkBase_loc_none (opts : Options) (l : SourceLocation)
    (c : Option String) (h : opts.includeSourceLocations = false) :
    (mkBase opts l c).loc = none := by
  simp [mkBase, h]

theorem mkDataItem_loc_none (opts : Options) (d : Decl)
    (h : opts.includeSourceLocations = false) :
    (mkDataItem opts d).loc = none := by
  unfold mkDataItem
  split <;> exact mkBase_loc_none opts d.loc d.comment h

theorem mkComputedItem_loc_none (opts : Options) (src : ComponentSource)
    (d : Decl) (h : opts.includeSourceLocations = false) :
    (mkComputedItem opts src d).loc = none := by
  unfold mkComputedItem
  split <;> exact mkBase_loc_none opts d.loc d.comment h

theorem mkMethodItem_loc_none (opts : Options) (d : Decl)
    (h : opts.includeSourceLocations = false) :
    (mkMethodItem opts d).loc = none := by
  unfold mkMethodItem
  split <;> exact mkBase_loc_none opts d.loc d.comment h

theorem mkComponentItem_loc_none (opts : Options) (src : ComponentSource)
    (t : MarkupTag) (h : opts.includeSourceLocations = false) :
    (mkComponentItem opts src t).loc = none :=
  mkBase_loc_none opts t.loc t.comment h

theorem mkRefItem_loc_none (opts : Options) (r : RefBinding)
    (h : opts.includeSourceLocations = false) :
    (mkRefItem opts r).loc = none :=
  mkBase_loc_none opts r.loc r.comment h

theorem mkEventItem_loc_none (opts : Options) (ev : EventBinding)
    (h : opts.includeSourceLocations = false) :
    (mkEventItem opts ev).loc = none :=
  mkBase_loc_none opts ev.loc ev.comment h

theorem mkSlotItem_loc_none (opts : Options) (sl : SlotDef)
    (h : opts.includeSourceLocations = false) :
    ((mkSlotItem opts sl).loc.isNone &&
      ((mkSlotItem opts sl).parameters.getD []).all
        (fun p => p.loc.isNone)) = true := by
  have h₁ : (mkSlotItem opts sl).loc = none :=
    mkBase_loc_none opts sl.loc sl.comment h
  rw [Bool.and_eq_true]
  refine ⟨by simp [h₁], ?_⟩
  have h₂ : (mkSlotItem opts sl).parameters
      = some (sl.params.map (mkSlotParameter opts)) := rfl
  rw [h₂, Option.getD_some, List.all_eq_true]
  intro p hp
  obtain ⟨q, hq, hqp⟩ := List.mem_map.mp hp
  rw [← hqp]
  simp [mkSlotParameter, h]

/-- C7: If the includeSourceLocations option is omitted or false, then no
item anywhere in the returned SvelteComponentDoc has a loc field (it is
absent, not set to a sentinel value): this covers the data, computed,
components, events, slots (slot parameters included), refs, methods,
actions, helpers and transitions lists of the schema. -/
theorem extract_no_locs (src : ComponentSource) (opts : Options)
    (doc : SvelteComponentDoc) (h : extract src opts = .ok doc)
    (hloc : opts.includeSourceLocations = false) : noLocs doc = true := by
  obtain ⟨-, -, hdoc⟩ := extract_ok_elim src opts doc h
  subst hdoc
  unfold noLocs buildDoc buildMethodsFor
  simp only [Bool.and_eq_true]
  refine ⟨⟨⟨⟨⟨⟨⟨⟨⟨?_, ?_⟩, ?_⟩, ?_⟩, ?_⟩, ?_⟩, ?_⟩, ?_⟩, ?_⟩, ?_⟩
  · exact filter_map_all_isNone _ _ _ _ (fun d => mkDataItem_loc_none opts d hloc)
  · exact filter_map_all_isNone _ _ _ _
      (fun d => mkComputedItem_loc_none opts src d hloc)
  · exact filter_map_all_isNone _ _ _ _
      (fun t => mkComponentItem_loc_none opts src t hloc)
  · exact filter_map_all_isNone _ _ _ _
      (fun ev => mkEventItem_loc_none opts ev hloc)
  · exact filter_map_all _ _ _ _ (fun sl => mkSlotItem_loc_none opts sl hloc)
  · exact filter_map_all_isNone _ _ _ _ (fun r => mkRefItem_loc_none opts r hloc)
  · exact filter_map_all_isNone _ _ _ _ (fun d => mkMethodItem_loc_none opts d hloc)
  · exact filter_map_all_isNone _ _ _ _ (fun d => mkMethodItem_loc_none opts d hloc)
  · exact filter_map_all_isNone _ _ _ _ (fun d => mkMethodItem_loc_none opts d hloc)
  · exact filter_map_all_isNone _ _ _ _ (fun d => mkMethodItem_loc_none opts d hloc)

theorem extract_no_locs_witness : noLocs (buildDoc sampleSrc optsNone) = true :=
  extract_no_locs sampleSrc optsNone (buildDoc sampleSrc optsNone) rfl rfl

/-- C8: extract is deterministic: for every pair of runs with identical
source text and identical options, the two returned results are structurally
equal — the engine is a pure function of its inputs. -/
theorem extract_deterministic (s₁ s₂ : ComponentSource) (o₁ o₂ : Options)
    (hs : s₁ = s₂) (ho : o₁ = o₂) : extract s₁ o₁ = extract s₂ o₂ := by
  subst hs
  subst ho
  rfl

theorem extract_deterministic_witness :
    extract sampleSrc optsNone = extract sampleSrc optsNone :=
  extract_deterministic sampleSrc sampleSrc optsNone optsNone rfl rfl

theorem mem_buildDoc_components (src : ComponentSource) (opts : Options)
    (it : SvelteComponentItem) (h : it ∈ (buildDoc src opts).components) :
    ∃ t, t ∈ usedComponentTags src ∧ it = mkComponentItem opts src t := by
  simp only [buildDoc] at h
  have h₂ := List.mem_of_mem_filter h
  obtain ⟨t, ht, hti⟩ := List.mem_map.mp h₂
  exact ⟨t, ht, hti.symm⟩

/-- C9: For every imported component identifier, the components list of the
output contains at most one SvelteComponentItem with that name (value = the
resolved import path), regardless of how many times the component tag occurs
in the markup. -/
theorem extract_components_unique (src : ComponentSource) (opts : Options)
    (doc : SvelteComponentDoc) (h : extract src opts = .ok doc) :
    (doc.components.map (fun it => it.name)).Nodup ∧
    ∀ it ∈ doc.components, importPath src.imports it.name = some it.value := by
  obtain ⟨-, -, hdoc⟩ := extract_ok_elim src opts doc h
  subst hdoc
  constructor
  · have hsub : List.Sublist
        ((buildDoc src opts).components.map (fun it => it.name))
        ((usedComponentTags src).map (fun t => t.tag)) :=
      names_filter_map_sublist _ _ _ _ _ (fun t => rfl)
    have hnodup : ((usedComponentTags src).map (fun t => t.tag)).Nodup :=
      dedupBy_key_nodup _ _ _
    exact hnodup.sublist hsub
  · intro it hit
    obtain ⟨t, ht, hti⟩ := mem_buildDoc_components src opts it hit
    subst hti
    have ht₂ := (mem_dedupBy _ _ _ _ ht).1
    have ht₃ := List.mem_filter.mp ht₂
    obtain ⟨path, hp⟩ := Option.isSome_iff_exists.mp ht₃.2
    show importPath src.imports t.tag
      = some ((importPath src.imports t.tag).getD "")
    rw [hp]
    rfl

theorem extract_components_unique_witness :
    ((buildDoc sampleSrc optsNone).components.map (fun it => it.name)).Nodup :=
  (extract_components_unique sampleSrc optsNone
    (buildDoc sampleSrc optsNone) rfl).1

theorem mkMethodItem_vis_args_opts (o o' : Options) (d : Decl) :
    (mkMethodItem o d).visibility = (mkMethodItem o' d).visibility ∧
    (mkMethodItem o d).args = (mkMethodItem o' d).args := by
  cases hk : d.kind <;> simp [mkMethodItem, hk, mkBase]

theorem map_filter_map_congr {α β γ : Type} (l : List α) (f g : α → β)
    (p q : β → Bool) (k : β → γ)
    (hpq : ∀ a, p (f a) = q (g a)) (hk : ∀ a, k (f a) = k (g a)) :
    ((l.map f).filter p).map k = ((l.map g).filter q).map k := by
  induction l with
  | nil => rfl
  | cons a l ih =>
    simp only [List.map_cons, List.filter_cons]
    cases h : q (g a) with
    | true =>
      rw [show p (f a) = true from (hpq a).trans h]
      simp only [if_true, List.map_cons]
      rw [ih, hk a]
    | false =>
      rw [show p (f a) = false from (hpq a).trans h]
      simp only [Bool.false_eq_true, if_false]
      exact ih

theorem buildMethodsFor_args_opts (src : ComponentSource) (o : Options)
    (b : Bool) (c : Category) :
    (buildMethodsFor src (Options.mk b o.ignorePrivate) c).map (fun m => m.args)
      = (buildMethodsFor src o c).map (fun m => m.args) := by
  unfold buildMethodsFor
  refine map_filter_map_congr _ _ _ _ _ _ (fun d => ?_) (fun d => ?_)
  · rw [(mkMethodItem_vis_args_opts (Options.mk b o.ignorePrivate) o d).1]
    rfl
  · exact (mkMethodItem_vis_args_opts (Options.mk b o.ignorePrivate) o d).2

/-- C10: A SvelteMethodArgumentItem is not an ISvelteItem: it is fully
determined by its six schema fields (name, type, repeated, optional,
default, description) — there is no loc, visibility, or keywords field — and
the argument lists of all produced callables are unchanged by the
includeSourceLocations option, so method arguments receive no source
locations even when they are requested. -/
theorem methodArgumentItem_shape :
    (∀ a b : SvelteMethodArgumentItem, a.name = b.name → a.type = b.type →
        a.repeated = b.repeated → a.optional = b.optional →
        a.default = b.default → a.description = b.description → a = b)
    ∧ (∀ (src : ComponentSource) (o : Options) (b : Bool)
        (doc : SvelteComponentDoc), extract src o = .ok doc →
        ∃ doc₂, extract src (Options.mk b o.ignorePrivate) = .ok doc₂ ∧
          doc₂.methods.map (fun m => m.args) = doc.methods.map (fun m => m.args) ∧
          doc₂.actions.map (fun m => m.args) = doc.actions.map (fun m => m.args) ∧
          doc₂.helpers.map (fun m => m.args) = doc.helpers.map (fun m => m.args) ∧
          doc₂.transitions.map (fun m => m.args)
            = doc.transitions.map (fun m => m.args)) := by
  constructor
  · intro a b h₁ h₂ h₃ h₄ h₅ h₆
    cases a
    cases b
    simp_all
  · intro src o b doc h
    obtain ⟨hv, hd, hdoc⟩ := extract_ok_elim src o doc h
    refine ⟨buildDoc src (Options.mk b o.ignorePrivate), ?_, ?_, ?_, ?_, ?_⟩
    · unfold extract
      rw [hv, hd]
    · subst hdoc
      exact buildMethodsFor_args_opts src o b .methods
    · subst hdoc
      exact buildMethodsFor_args_opts src o b .actions
    · subst hdoc
      exact buildMethodsFor_args_opts src o b .helpers
    · subst hdoc
      exact buildMethodsFor_args_opts src o b .transitions

theorem methodArgumentItem_shape_witness :
    convertParam sampleForce = convertParam sampleForce ∧
    (extract sampleSrc (Options.mk true false)).toOption.map
        (fun d => d.methods.map (fun m => m.args))
      = (extract sampleSrc optsNone).toOption.map
        (fun d => d.methods.map (fun m => m.args)) := by
  constructor
  · exact methodArgumentItem_shape.1 _ _ rfl rfl rfl rfl rfl rfl
  · obtain ⟨doc₂, he, hm, -, -, -⟩ := methodArgumentItem_shape.2 sampleSrc
      optsNone true (buildDoc sampleSrc optsNone) rfl
    have he₂ : extract sampleSrc (Options.mk true false) = .ok doc₂ := he
    have ho : extract sampleSrc optsNone
        = .ok (buildDoc sampleSrc optsNone) := rfl
    rw [he₂, ho]
    simp [Except.toOption, hm]
